import Mathlib

/-!
Verification of the mask-smith encrypted-token codec.

The development shallowly embeds the two source modules:

* `src/Z85.ts` — the binary transport codec (Z85-style radix-85 encode/decode).
  Byte buffers are `List Nat` (each entry a byte value), strings are `List Char`.
  The imperative 4-byte / 5-char group loops are rendered as structural
  recursions over the padded input, reproducing the source's padding and
  tail-truncation arithmetic exactly (including the decode table's behaviour on
  characters outside the alphabet: in-range characters map through the table,
  out-of-range character codes follow the source's NaN path, which stores four
  zero bytes for the affected group).

* `src/extension.ts` — password handling (`readPassword`, `inputPassword`),
  `encryptText` and `decryptText`.  Platform collaborators (WebCrypto SHA-256
  and AES-GCM, TextEncoder/TextDecoder) are abstracted as a `Crypto` record of
  pure functions; the VS Code secret store is an association list threaded
  through every function; the interactive prompts are a `UI` record giving the
  user's answers.  Each embedded function returns its result together with the
  final store state.
-/

/-! ## Transport codec (src/Z85.ts) -/

/-- The 85-symbol alphabet `_z85EncodeTable` from src/Z85.ts. -/
def Z85_CHARS : List Char :=
  ("0123456789abcdefghijklmnopqrstuvwxyz"
    ++ "ABCDEFGHIJKLMNOPQRSTUVWXYZ"
    ++ ".-:+=^!/*?&<_()[]\x7b\x7d@%$#").toList

/-- The decode table `_z85DecodeTable` from src/Z85.ts (96 entries, indexed by
character code minus 32). -/
def Z85_DECODE : List Nat :=
  [0x00, 0x44, 0x00, 0x54, 0x53, 0x52, 0x48, 0x00,
   0x4B, 0x4C, 0x46, 0x41, 0x00, 0x3F, 0x3E, 0x45,
   0x00, 0x01, 0x02, 0x03, 0x04, 0x05, 0x06, 0x07,
   0x08, 0x09, 0x40, 0x00, 0x49, 0x42, 0x00, 0x47,
   0x51, 0x24, 0x25, 0x26, 0x27, 0x28, 0x29, 0x2A,
   0x2B, 0x2C, 0x2D, 0x2E, 0x2F, 0x30, 0x31, 0x32,
   0x33, 0x34, 0x35, 0x36, 0x37, 0x38, 0x39, 0x3A,
   0x3B, 0x3C, 0x3D, 0x4D, 0x00, 0x4E, 0x43, 0x4A,
   0x00, 0x0A, 0x0B, 0x0C, 0x0D, 0x0E, 0x0F, 0x10,
   0x11, 0x12, 0x13, 0x14, 0x15, 0x16, 0x17, 0x18,
   0x19, 0x1A, 0x1B, 0x1C, 0x1D, 0x1E, 0x1F, 0x20,
   0x21, 0x22, 0x23, 0x4F, 0x00, 0x50, 0x00, 0x00]

/-- `_z85EncodeTable[code]` for a digit value `code < 85`. -/
def encChar (d : Nat) : Char := Z85_CHARS.getD d '0'

/-- One iteration of the encoder's inner `j` loop: the five radix-85 digits of
a 32-bit group value, most significant first (`divisor` runs 85^4 .. 85^0). -/
def encodeGroupDigits (v : Nat) : List Char :=
  [encChar (v / 52200625 % 85), encChar (v / 614125 % 85), encChar (v / 7225 % 85),
   encChar (v / 85 % 85), encChar (v % 85)]

/-- The encoder's main loop over the zero-padded byte list: each 4-byte group
is turned into its 5 digits; for the final group the last `padding` digits are
dropped (`!isPadding || j > padding` in the source). -/
def encodeLoop : List Nat → Nat → List Char
  | b0 :: b1 :: b2 :: b3 :: rest, padding =>
    (encodeGroupDigits (((b0 * 256 + b1) * 256 + b2) * 256 + b3)).take
        (if rest = [] then 5 - padding else 5) ++ encodeLoop rest padding
  | _, _ => []

/-- Encoding of one byte buffer: compute the padding to a multiple of 4,
zero-pad, and run the group loop (src/Z85.ts `encode`, single-buffer core). -/
def z85_encodeBytes (bytes : List Nat) : List Char :=
  encodeLoop (bytes ++ List.replicate (if bytes.length % 4 = 0 then 0 else 4 - bytes.length % 4) 0)
    (if bytes.length % 4 = 0 then 0 else 4 - bytes.length % 4)

/-- `Z85.encode(...byteArrays)`: returns the empty string for no arguments,
otherwise concatenates all buffers and encodes the concatenation. -/
def z85_encode (byteArrays : List (List Nat)) : List Char :=
  if byteArrays.isEmpty then [] else z85_encodeBytes byteArrays.flatten

/-- `_z85DecodeTable[string.charCodeAt(i) - 32]`: an in-range character code
reads the table (unlisted characters sit on a 0 entry); an out-of-range code
yields JavaScript `undefined`, modelled as `none` (the NaN path). -/
def decodeDigit (c : Char) : Option Nat :=
  if 32 ≤ c.toNat ∧ c.toNat < 128 then some (Z85_DECODE.getD (c.toNat - 32) 0) else none

/-- The decoder's 5-digit accumulator `value = value * 85 + table[code]`.
If any digit took the `undefined` path the whole accumulator is NaN. -/
def decodeGroupValue (c0 c1 c2 c3 c4 : Char) : Option Nat :=
  match decodeDigit c0, decodeDigit c1, decodeDigit c2, decodeDigit c3, decodeDigit c4 with
  | some d0, some d1, some d2, some d3, some d4 =>
      some ((((d0 * 85 + d1) * 85 + d2) * 85 + d3) * 85 + d4)
  | _, _, _, _, _ => none

/-- The four bytes written for one group (`setUint8(..., floor(value/divisor) % 256)`);
a NaN accumulator coerces to byte 0 in `setUint8`. -/
def groupBytes : Option Nat → List Nat
  | some w => [w / 16777216 % 256, w / 65536 % 256, w / 256 % 256, w % 256]
  | none => [0, 0, 0, 0]

/-- The decoder's main loop over the sentinel-padded character list.  The
buffer is `padding` bytes shorter than 4 bytes per group, so the `byteIdx <
byteLength` guard truncates exactly the last `padding` bytes, i.e. the final
group keeps `4 - padding` bytes. -/
def decodeLoop : List Char → Nat → List Nat
  | c0 :: c1 :: c2 :: c3 :: c4 :: rest, padding =>
    (if rest = [] then (groupBytes (decodeGroupValue c0 c1 c2 c3 c4)).take (4 - padding)
     else groupBytes (decodeGroupValue c0 c1 c2 c3 c4)) ++ decodeLoop rest padding
  | _, _ => []

/-- `Z85.decode(string)`: pad with the sentinel `'#'` (the last alphabet
symbol) to a multiple of 5 characters, then run the group loop. -/
def z85_decode (s : List Char) : List Nat :=
  decodeLoop (s ++ List.replicate (if s.length % 5 = 0 then 0 else 5 - s.length % 5) '#')
    (if s.length % 5 = 0 then 0 else 5 - s.length % 5)

/-! ### Arithmetic facts about group values -/

theorem mul_add_div_small (u k r : Nat) (hk : 0 < k) (hr : r < k) : (u * k + r) / k = u := by
  rw [Nat.mul_comm, Nat.mul_add_div hk, Nat.div_eq_of_lt hr, Nat.add_zero]

theorem digits5_eq (v : Nat) (hv : v < 4294967296) :
    (((v / 52200625 % 85 * 85 + v / 614125 % 85) * 85 + v / 7225 % 85) * 85
      + v / 85 % 85) * 85 + v % 85 = v := by
  have e1 : v / 85 / 85 = v / 7225 := by rw [Nat.div_div_eq_div_mul]
  have e2 : v / 7225 / 85 = v / 614125 := by rw [Nat.div_div_eq_div_mul]
  have e3 : v / 614125 / 85 = v / 52200625 := by rw [Nat.div_div_eq_div_mul]
  omega

theorem digits4_eq (v : Nat) (hv : v < 4294967296) :
    ((v / 52200625 % 85 * 85 + v / 614125 % 85) * 85 + v / 7225 % 85) * 85
      + v / 85 % 85 = v / 85 := by
  have e1 : v / 85 / 85 = v / 7225 := by rw [Nat.div_div_eq_div_mul]
  have e2 : v / 7225 / 85 = v / 614125 := by rw [Nat.div_div_eq_div_mul]
  have e3 : v / 614125 / 85 = v / 52200625 := by rw [Nat.div_div_eq_div_mul]
  omega

theorem digits3_eq (v : Nat) (hv : v < 4294967296) :
    (v / 52200625 % 85 * 85 + v / 614125 % 85) * 85 + v / 7225 % 85 = v / 7225 := by
  have e2 : v / 7225 / 85 = v / 614125 := by rw [Nat.div_div_eq_div_mul]
  have e3 : v / 614125 / 85 = v / 52200625 := by rw [Nat.div_div_eq_div_mul]
  omega

theorem digits2_eq (v : Nat) (hv : v < 4294967296) :
    v / 52200625 % 85 * 85 + v / 614125 % 85 = v / 614125 := by
  have e3 : v / 614125 / 85 = v / 52200625 := by rw [Nat.div_div_eq_div_mul]
  omega

/-- Looking up the encoded character of a digit in the decode table returns
the digit: the two tables of src/Z85.ts are mutually inverse on the alphabet. -/
theorem decodeDigit_encChar : ∀ d < 85, decodeDigit (encChar d) = some d := by decide

/-- The sentinel character `'#'` decodes to digit 84. -/
theorem decodeDigit_sentinel : decodeDigit '#' = some 84 := by decide

theorem decodeGroupValue_enc (v : Nat) (hv : v < 4294967296) :
    decodeGroupValue (encChar (v / 52200625 % 85)) (encChar (v / 614125 % 85))
      (encChar (v / 7225 % 85)) (encChar (v / 85 % 85)) (encChar (v % 85)) = some v := by
  unfold decodeGroupValue
  rw [decodeDigit_encChar _ (Nat.mod_lt _ (by norm_num)),
      decodeDigit_encChar _ (Nat.mod_lt _ (by norm_num)),
      decodeDigit_encChar _ (Nat.mod_lt _ (by norm_num)),
      decodeDigit_encChar _ (Nat.mod_lt _ (by norm_num)),
      decodeDigit_encChar _ (Nat.mod_lt _ (by norm_num))]
  simp only [Option.some.injEq]
  exact digits5_eq v hv

theorem groupValue_lt (b0 b1 b2 b3 : Nat)
    (h0 : b0 < 256) (h1 : b1 < 256) (h2 : b2 < 256) (h3 : b3 < 256) :
    ((b0 * 256 + b1) * 256 + b2) * 256 + b3 < 4294967296 := by omega

theorem groupBytes_of_value (b0 b1 b2 b3 : Nat)
    (h0 : b0 < 256) (h1 : b1 < 256) (h2 : b2 < 256) (h3 : b3 < 256) :
    groupBytes (some (((b0 * 256 + b1) * 256 + b2) * 256 + b3)) = [b0, b1, b2, b3] := by
  show [_, _, _, _] = _
  have e1 : (((b0 * 256 + b1) * 256 + b2) * 256 + b3) / 256 / 256
      = (((b0 * 256 + b1) * 256 + b2) * 256 + b3) / 65536 := by
    rw [Nat.div_div_eq_div_mul]
  have e2 : (((b0 * 256 + b1) * 256 + b2) * 256 + b3) / 65536 / 256
      = (((b0 * 256 + b1) * 256 + b2) * 256 + b3) / 16777216 := by
    rw [Nat.div_div_eq_div_mul]
  have h16 : (((b0 * 256 + b1) * 256 + b2) * 256 + b3) / 16777216 % 256 = b0 := by omega
  have h65 : (((b0 * 256 + b1) * 256 + b2) * 256 + b3) / 65536 % 256 = b1 := by omega
  have h25 : (((b0 * 256 + b1) * 256 + b2) * 256 + b3) / 256 % 256 = b2 := by omega
  have hm : (((b0 * 256 + b1) * 256 + b2) * 256 + b3) % 256 = b3 := by omega
  rw [h16, h65, h25, hm]

/-! ### Per-group round-trip lemmas -/

/-- A full 4-byte group: decoding its five encoded digits recovers the bytes. -/
theorem fullGroup_decode (b0 b1 b2 b3 : Nat)
    (h0 : b0 < 256) (h1 : b1 < 256) (h2 : b2 < 256) (h3 : b3 < 256) :
    groupBytes (decodeGroupValue
        (encChar ((((b0 * 256 + b1) * 256 + b2) * 256 + b3) / 52200625 % 85))
        (encChar ((((b0 * 256 + b1) * 256 + b2) * 256 + b3) / 614125 % 85))
        (encChar ((((b0 * 256 + b1) * 256 + b2) * 256 + b3) / 7225 % 85))
        (encChar ((((b0 * 256 + b1) * 256 + b2) * 256 + b3) / 85 % 85))
        (encChar ((((b0 * 256 + b1) * 256 + b2) * 256 + b3) % 85))) = [b0, b1, b2, b3] := by
  rw [decodeGroupValue_enc _ (groupValue_lt b0 b1 b2 b3 h0 h1 h2 h3)]
  exact groupBytes_of_value b0 b1 b2 b3 h0 h1 h2 h3

/-- Reduce `decodeGroupValue` when all five digits resolve. -/
theorem decodeGroupValue_eq (c0 c1 c2 c3 c4 : Char) (d0 d1 d2 d3 d4 : Nat)
    (h0 : decodeDigit c0 = some d0) (h1 : decodeDigit c1 = some d1)
    (h2 : decodeDigit c2 = some d2) (h3 : decodeDigit c3 = some d3)
    (h4 : decodeDigit c4 = some d4) :
    decodeGroupValue c0 c1 c2 c3 c4
      = some ((((d0 * 85 + d1) * 85 + d2) * 85 + d3) * 85 + d4) := by
  unfold decodeGroupValue
  rw [h0, h1, h2, h3, h4]

/-- Final group with 3 data bytes (encode padding 1): the four kept digits plus
one sentinel decode back to the three bytes. -/
theorem lastGroup1_decode (b0 b1 b2 : Nat)
    (h0 : b0 < 256) (h1 : b1 < 256) (h2 : b2 < 256) :
    (groupBytes (decodeGroupValue
        (encChar ((((b0 * 256 + b1) * 256 + b2) * 256 + 0) / 52200625 % 85))
        (encChar ((((b0 * 256 + b1) * 256 + b2) * 256 + 0) / 614125 % 85))
        (encChar ((((b0 * 256 + b1) * 256 + b2) * 256 + 0) / 7225 % 85))
        (encChar ((((b0 * 256 + b1) * 256 + b2) * 256 + 0) / 85 % 85))
        '#')).take 3 = [b0, b1, b2] := by
  have hv : (((b0 * 256 + b1) * 256 + b2) * 256 + 0) < 4294967296 := by omega
  rw [decodeGroupValue_eq _ _ _ _ _ _ _ _ _ _
        (decodeDigit_encChar _ (Nat.mod_lt _ (by norm_num)))
        (decodeDigit_encChar _ (Nat.mod_lt _ (by norm_num)))
        (decodeDigit_encChar _ (Nat.mod_lt _ (by norm_num)))
        (decodeDigit_encChar _ (Nat.mod_lt _ (by norm_num)))
        decodeDigit_sentinel]
  rw [digits4_eq _ hv]
  have hdm := Nat.div_add_mod (((b0 * 256 + b1) * 256 + b2) * 256 + 0) 85
  have hmlt : (((b0 * 256 + b1) * 256 + b2) * 256 + 0) % 85 < 85 :=
    Nat.mod_lt _ (by norm_num)
  have hw2 : (((b0 * 256 + b1) * 256 + b2) * 256 + 0) / 85 * 85 + 84
      = ((b0 * 256 + b1) * 256 + b2) * 256
        + (84 - (((b0 * 256 + b1) * 256 + b2) * 256 + 0) % 85) := by omega
  simp only [groupBytes]
  rw [hw2]
  have hq : (((b0 * 256 + b1) * 256 + b2) * 256
      + (84 - (((b0 * 256 + b1) * 256 + b2) * 256 + 0) % 85)) / 256
      = (b0 * 256 + b1) * 256 + b2 :=
    mul_add_div_small _ _ _ (by norm_num) (by omega)
  have f1 : ∀ w : Nat, w / 65536 = w / 256 / 256 := by
    intro w; rw [Nat.div_div_eq_div_mul]
  have f2 : ∀ w : Nat, w / 16777216 = w / 65536 / 256 := by
    intro w; rw [Nat.div_div_eq_div_mul]
  rw [f2, f1, hq]
  have u1 : ((b0 * 256 + b1) * 256 + b2) / 256 / 256 = ((b0 * 256 + b1) * 256 + b2) / 65536 := by
    rw [Nat.div_div_eq_div_mul]
  simp only [List.take_succ_cons, List.take_zero, List.cons.injEq, and_true]
  refine ⟨by omega, by omega, by omega⟩

/-- Final group with 2 data bytes (encode padding 2). -/
theorem lastGroup2_decode (b0 b1 : Nat) (h0 : b0 < 256) (h1 : b1 < 256) :
    (groupBytes (decodeGroupValue
        (encChar ((((b0 * 256 + b1) * 256 + 0) * 256 + 0) / 52200625 % 85))
        (encChar ((((b0 * 256 + b1) * 256 + 0) * 256 + 0) / 614125 % 85))
        (encChar ((((b0 * 256 + b1) * 256 + 0) * 256 + 0) / 7225 % 85))
        '#' '#')).take 2 = [b0, b1] := by
  have hv : (((b0 * 256 + b1) * 256 + 0) * 256 + 0) < 4294967296 := by omega
  rw [decodeGroupValue_eq _ _ _ _ _ _ _ _ _ _
        (decodeDigit_encChar _ (Nat.mod_lt _ (by norm_num)))
        (decodeDigit_encChar _ (Nat.mod_lt _ (by norm_num)))
        (decodeDigit_encChar _ (Nat.mod_lt _ (by norm_num)))
        decodeDigit_sentinel decodeDigit_sentinel]
  rw [digits3_eq _ hv]
  have hdm := Nat.div_add_mod (((b0 * 256 + b1) * 256 + 0) * 256 + 0) 7225
  have hmlt : (((b0 * 256 + b1) * 256 + 0) * 256 + 0) % 7225 < 7225 :=
    Nat.mod_lt _ (by norm_num)
  have hw2 : ((((b0 * 256 + b1) * 256 + 0) * 256 + 0) / 7225 * 85 + 84) * 85 + 84
      = (b0 * 256 + b1) * 65536
        + (7224 - (((b0 * 256 + b1) * 256 + 0) * 256 + 0) % 7225) := by omega
  simp only [groupBytes]
  rw [hw2]
  have hq : ((b0 * 256 + b1) * 65536
      + (7224 - (((b0 * 256 + b1) * 256 + 0) * 256 + 0) % 7225)) / 65536
      = b0 * 256 + b1 :=
    mul_add_div_small _ _ _ (by norm_num) (by omega)
  have f1 : ∀ w : Nat, w / 65536 = w / 256 / 256 := by
    intro w; rw [Nat.div_div_eq_div_mul]
  have f2 : ∀ w : Nat, w / 16777216 = w / 65536 / 256 := by
    intro w; rw [Nat.div_div_eq_div_mul]
  rw [f2, hq]
  simp only [List.take_succ_cons, List.take_zero, List.cons.injEq, and_true]
  refine ⟨by omega, by omega⟩

/-- Final group with 1 data byte (encode padding 3). -/
theorem lastGroup3_decode (b0 : Nat) (h0 : b0 < 256) :
    (groupBytes (decodeGroupValue
        (encChar ((((b0 * 256 + 0) * 256 + 0) * 256 + 0) / 52200625 % 85))
        (encChar ((((b0 * 256 + 0) * 256 + 0) * 256 + 0) / 614125 % 85))
        '#' '#' '#')).take 1 = [b0] := by
  have hv : (((b0 * 256 + 0) * 256 + 0) * 256 + 0) < 4294967296 := by omega
  rw [decodeGroupValue_eq _ _ _ _ _ _ _ _ _ _
        (decodeDigit_encChar _ (Nat.mod_lt _ (by norm_num)))
        (decodeDigit_encChar _ (Nat.mod_lt _ (by norm_num)))
        decodeDigit_sentinel decodeDigit_sentinel decodeDigit_sentinel]
  rw [digits2_eq _ hv]
  have hdm := Nat.div_add_mod ((((b0 * 256 + 0) * 256 + 0) * 256 + 0)) 614125
  have hmlt : (((b0 * 256 + 0) * 256 + 0) * 256 + 0) % 614125 < 614125 :=
    Nat.mod_lt _ (by norm_num)
  have hw2 : (((((b0 * 256 + 0) * 256 + 0) * 256 + 0) / 614125 * 85 + 84) * 85 + 84) * 85 + 84
      = b0 * 16777216
        + (614124 - (((b0 * 256 + 0) * 256 + 0) * 256 + 0) % 614125) := by omega
  simp only [groupBytes]
  rw [hw2]
  have hq : (b0 * 16777216
      + (614124 - (((b0 * 256 + 0) * 256 + 0) * 256 + 0) % 614125)) / 16777216 = b0 :=
    mul_add_div_small _ _ _ (by norm_num) (by omega)
  simp only [List.take_succ_cons, List.take_zero, List.cons.injEq, and_true]
  omega

/-! ### Loop-level round trip -/

theorem length_ge_four (l : List Nat) (h4 : l.length % 4 = 0) (hne : l ≠ []) :
    4 ≤ l.length := by
  have h0 : 0 < l.length := List.length_pos.mpr hne
  omega

theorem encodeLoop_length : ∀ (bs : List Nat) (p : Nat), bs.length % 4 = 0 → p ≤ 3 →
    bs ≠ [] → (encodeLoop bs p).length = bs.length / 4 * 5 - p := by
  intro bs p
  induction bs, p using encodeLoop.induct with
  | case1 b0 b1 b2 b3 rest p ih =>
    intro h4 hp _
    by_cases hr : rest = []
    · subst hr
      simp [encodeLoop, encodeGroupDigits]
    · have hr4 : rest.length % 4 = 0 := by
        simp only [List.length_cons] at h4; omega
      have hrecl := ih hr4 hp hr
      have hrge : 4 ≤ rest.length := length_ge_four rest hr4 hr
      simp only [encodeLoop, if_neg hr, List.length_append, List.length_take, hrecl,
        List.length_cons]
      simp only [encodeGroupDigits, List.length_cons, List.length_nil]
      omega
  | case2 t p hno =>
    intro h4 _ hne
    rcases t with _ | ⟨a, _ | ⟨b, _ | ⟨c, _ | ⟨d, t⟩⟩⟩⟩
    · exact absurd rfl hne
    · simp at h4
    · simp at h4
    · simp at h4
    · exact absurd rfl (hno a b c d t)

theorem encodeLoop_ne_nil (bs : List Nat) (p : Nat) (h4 : bs.length % 4 = 0) (hp : p ≤ 3)
    (hne : bs ≠ []) : encodeLoop bs p ≠ [] := by
  have hlen := encodeLoop_length bs p h4 hp hne
  have hge : 4 ≤ bs.length := length_ge_four bs h4 hne
  have hpos : 0 < (encodeLoop bs p).length := by
    rw [hlen]
    have h1 : 1 ≤ bs.length / 4 := by omega
    omega
  exact List.ne_nil_of_length_pos hpos

/-- Generic-value form of `fullGroup_decode`, convenient for rewriting. -/
theorem fullGroup_v (v b0 b1 b2 b3 : Nat)
    (h0 : b0 < 256) (h1 : b1 < 256) (h2 : b2 < 256) (h3 : b3 < 256)
    (hv : v = ((b0 * 256 + b1) * 256 + b2) * 256 + b3) :
    groupBytes (decodeGroupValue (encChar (v / 52200625 % 85)) (encChar (v / 614125 % 85))
      (encChar (v / 7225 % 85)) (encChar (v / 85 % 85)) (encChar (v % 85)))
      = [b0, b1, b2, b3] := by
  subst hv; exact fullGroup_decode b0 b1 b2 b3 h0 h1 h2 h3

theorem lastGroup1_v (v b0 b1 b2 : Nat)
    (h0 : b0 < 256) (h1 : b1 < 256) (h2 : b2 < 256)
    (hv : v = ((b0 * 256 + b1) * 256 + b2) * 256 + 0) :
    (groupBytes (decodeGroupValue (encChar (v / 52200625 % 85)) (encChar (v / 614125 % 85))
      (encChar (v / 7225 % 85)) (encChar (v / 85 % 85)) '#')).take 3 = [b0, b1, b2] := by
  subst hv; exact lastGroup1_decode b0 b1 b2 h0 h1 h2

theorem lastGroup2_v (v b0 b1 : Nat) (h0 : b0 < 256) (h1 : b1 < 256)
    (hv : v = ((b0 * 256 + b1) * 256 + 0) * 256 + 0) :
    (groupBytes (decodeGroupValue (encChar (v / 52200625 % 85)) (encChar (v / 614125 % 85))
      (encChar (v / 7225 % 85)) '#' '#')).take 2 = [b0, b1] := by
  subst hv; exact lastGroup2_decode b0 b1 h0 h1

theorem lastGroup3_v (v b0 : Nat) (h0 : b0 < 256)
    (hv : v = ((b0 * 256 + 0) * 256 + 0) * 256 + 0) :
    (groupBytes (decodeGroupValue (encChar (v / 52200625 % 85)) (encChar (v / 614125 % 85))
      '#' '#' '#')).take 1 = [b0] := by
  subst hv; exact lastGroup3_decode b0 h0

/-! Small definitional reduction lemmas for the loops. -/

theorem decodeLoop_nil (p : Nat) : decodeLoop [] p = [] := rfl

theorem decodeLoop_five (c0 c1 c2 c3 c4 : Char) (p : Nat) :
    decodeLoop [c0, c1, c2, c3, c4] p
      = (groupBytes (decodeGroupValue c0 c1 c2 c3 c4)).take (4 - p) := by
  simp [decodeLoop]

theorem decodeLoop_cons (c0 c1 c2 c3 c4 : Char) (rest : List Char) (p : Nat) (h : rest ≠ []) :
    decodeLoop (c0 :: c1 :: c2 :: c3 :: c4 :: rest) p
      = groupBytes (decodeGroupValue c0 c1 c2 c3 c4) ++ decodeLoop rest p := by
  simp [decodeLoop, h]

theorem encodeLoop_last (b0 b1 b2 b3 : Nat) (p : Nat) :
    encodeLoop [b0, b1, b2, b3] p
      = (encodeGroupDigits (((b0 * 256 + b1) * 256 + b2) * 256 + b3)).take (5 - p) := by
  simp [encodeLoop]

theorem take_digits_all (v : Nat) : (encodeGroupDigits v).take 5 = encodeGroupDigits v := rfl

theorem encodeLoop_cons (b0 b1 b2 b3 : Nat) (rest : List Nat) (p : Nat) (h : rest ≠ []) :
    encodeLoop (b0 :: b1 :: b2 :: b3 :: rest) p
      = encodeGroupDigits (((b0 * 256 + b1) * 256 + b2) * 256 + b3) ++ encodeLoop rest p := by
  rw [encodeLoop]
  rw [if_neg h, take_digits_all]

theorem take4_digits (v : Nat) : (encodeGroupDigits v).take 4
    = [encChar (v / 52200625 % 85), encChar (v / 614125 % 85), encChar (v / 7225 % 85),
       encChar (v / 85 % 85)] := rfl

theorem take3_digits (v : Nat) : (encodeGroupDigits v).take 3
    = [encChar (v / 52200625 % 85), encChar (v / 614125 % 85), encChar (v / 7225 % 85)] := rfl

theorem take2_digits (v : Nat) : (encodeGroupDigits v).take 2
    = [encChar (v / 52200625 % 85), encChar (v / 614125 % 85)] := rfl

/-- Core loop round trip: decoding the encoded group stream (with its sentinel
padding restored) recovers the data bytes, dropping the zero padding. -/
theorem decode_encodeLoop : ∀ (bs : List Nat) (p : Nat), bs.length % 4 = 0 → p ≤ 3 →
    (∀ b ∈ bs, b < 256) → List.drop (bs.length - p) bs = List.replicate p 0 →
    decodeLoop (encodeLoop bs p ++ List.replicate p '#') p = List.take (bs.length - p) bs := by
  intro bs p
  induction bs, p using encodeLoop.induct with
  | case2 t p hno =>
    intro h4 hp hb hz
    rcases t with _ | ⟨a, _ | ⟨b, _ | ⟨c, _ | ⟨d, t⟩⟩⟩⟩
    · have hp0 : p = 0 := by
        have hlen := congrArg List.length hz
        simp at hlen
        omega
      subst hp0
      rfl
    · simp at h4
    · simp at h4
    · simp at h4
    · exact absurd rfl (hno a b c d t)
  | case1 b0 b1 b2 b3 rest p ih =>
    intro h4 hp hb hz
    have hb0 : b0 < 256 := hb b0 (by simp)
    have hb1 : b1 < 256 := hb b1 (by simp)
    have hb2 : b2 < 256 := hb b2 (by simp)
    have hb3 : b3 < 256 := hb b3 (by simp)
    by_cases hr : rest = []
    · subst hr
      rw [encodeLoop_last]
      interval_cases p
      · rw [show (5 : Nat) - 0 = 5 from rfl, take_digits_all]
        rw [show List.replicate 0 '#' = ([] : List Char) from rfl, List.append_nil]
        rw [show encodeGroupDigits (((b0 * 256 + b1) * 256 + b2) * 256 + b3)
              = [encChar ((((b0 * 256 + b1) * 256 + b2) * 256 + b3) / 52200625 % 85),
                 encChar ((((b0 * 256 + b1) * 256 + b2) * 256 + b3) / 614125 % 85),
                 encChar ((((b0 * 256 + b1) * 256 + b2) * 256 + b3) / 7225 % 85),
                 encChar ((((b0 * 256 + b1) * 256 + b2) * 256 + b3) / 85 % 85),
                 encChar ((((b0 * 256 + b1) * 256 + b2) * 256 + b3) % 85)] from rfl]
        rw [decodeLoop_five]
        rw [fullGroup_v _ b0 b1 b2 b3 hb0 hb1 hb2 hb3 rfl]
        rfl
      · have hz3 : b3 = 0 := by simpa using hz
        subst hz3
        rw [show (5 : Nat) - 1 = 4 from rfl, take4_digits]
        rw [show List.replicate 1 '#' = ['#'] from rfl]
        rw [show ([encChar ((((b0 * 256 + b1) * 256 + b2) * 256 + 0) / 52200625 % 85),
                   encChar ((((b0 * 256 + b1) * 256 + b2) * 256 + 0) / 614125 % 85),
                   encChar ((((b0 * 256 + b1) * 256 + b2) * 256 + 0) / 7225 % 85),
                   encChar ((((b0 * 256 + b1) * 256 + b2) * 256 + 0) / 85 % 85)] ++ ['#'])
              = [encChar ((((b0 * 256 + b1) * 256 + b2) * 256 + 0) / 52200625 % 85),
                 encChar ((((b0 * 256 + b1) * 256 + b2) * 256 + 0) / 614125 % 85),
                 encChar ((((b0 * 256 + b1) * 256 + b2) * 256 + 0) / 7225 % 85),
                 encChar ((((b0 * 256 + b1) * 256 + b2) * 256 + 0) / 85 % 85), '#'] from rfl]
        rw [decodeLoop_five, show (4 : Nat) - 1 = 3 from rfl]
        rw [lastGroup1_v _ b0 b1 b2 hb0 hb1 hb2 rfl]
        rfl
      · have hz2 : b2 = 0 ∧ b3 = 0 := by
          have := hz
          simp [List.replicate] at this
          exact this
        obtain ⟨hz2a, hz2b⟩ := hz2
        subst hz2a; subst hz2b
        rw [show (5 : Nat) - 2 = 3 from rfl, take3_digits]
        rw [show List.replicate 2 '#' = ['#', '#'] from rfl]
        rw [show ([encChar ((((b0 * 256 + b1) * 256 + 0) * 256 + 0) / 52200625 % 85),
                   encChar ((((b0 * 256 + b1) * 256 + 0) * 256 + 0) / 614125 % 85),
                   encChar ((((b0 * 256 + b1) * 256 + 0) * 256 + 0) / 7225 % 85)] ++ ['#', '#'])
              = [encChar ((((b0 * 256 + b1) * 256 + 0) * 256 + 0) / 52200625 % 85),
                 encChar ((((b0 * 256 + b1) * 256 + 0) * 256 + 0) / 614125 % 85),
                 encChar ((((b0 * 256 + b1) * 256 + 0) * 256 + 0) / 7225 % 85), '#', '#']
              from rfl]
        rw [decodeLoop_five, show (4 : Nat) - 2 = 2 from rfl]
        rw [lastGroup2_v _ b0 b1 hb0 hb1 rfl]
        rfl
      · have hz1 : b1 = 0 ∧ b2 = 0 ∧ b3 = 0 := by
          have := hz
          simp [List.replicate] at this
          exact this
        obtain ⟨hz1a, hz1b, hz1c⟩ := hz1
        subst hz1a; subst hz1b; subst hz1c
        rw [show (5 : Nat) - 3 = 2 from rfl, take2_digits]
        rw [show List.replicate 3 '#' = ['#', '#', '#'] from rfl]
        rw [show ([encChar ((((b0 * 256 + 0) * 256 + 0) * 256 + 0) / 52200625 % 85),
                   encChar ((((b0 * 256 + 0) * 256 + 0) * 256 + 0) / 614125 % 85)]
                  ++ ['#', '#', '#'])
              = [encChar ((((b0 * 256 + 0) * 256 + 0) * 256 + 0) / 52200625 % 85),
                 encChar ((((b0 * 256 + 0) * 256 + 0) * 256 + 0) / 614125 % 85), '#', '#', '#']
              from rfl]
        rw [decodeLoop_five, show (4 : Nat) - 3 = 1 from rfl]
        rw [lastGroup3_v _ b0 hb0 rfl]
        rfl
    · have hr4 : rest.length % 4 = 0 := by
        simp only [List.length_cons] at h4; omega
      have hrge : 4 ≤ rest.length := length_ge_four rest hr4 hr
      have hbrest : ∀ b ∈ rest, b < 256 := by
        intro b hbm; exact hb b (by simp [hbm])
      have hzrest : List.drop (rest.length - p) rest = List.replicate p 0 := by
        have hsplit : b0 :: b1 :: b2 :: b3 :: rest = [b0, b1, b2, b3] ++ rest := rfl
        rw [hsplit, List.drop_append_eq_append_drop] at hz
        have hlen : ([b0, b1, b2, b3] ++ rest).length = 4 + rest.length := by simp; omega
        rw [hlen] at hz
        have h1 : List.drop (4 + rest.length - p) [b0, b1, b2, b3] = [] := by
          apply List.drop_eq_nil_of_le
          simp
          omega
        rw [h1, List.nil_append] at hz
        have h2 : 4 + rest.length - p - ([b0, b1, b2, b3] : List Nat).length
            = rest.length - p := by simp; omega
        rw [h2] at hz
        exact hz
      have hih := ih hr4 hp hbrest hzrest
      rw [encodeLoop_cons _ _ _ _ _ _ hr, List.append_assoc]
      have htail : encodeLoop rest p ++ List.replicate p '#' ≠ [] := by
        intro hcontra
        have := congrArg List.length hcontra
        simp only [List.length_append, List.length_replicate, List.length_nil] at this
        have hel := encodeLoop_length rest p hr4 hp hr
        omega
      rw [show encodeGroupDigits (((b0 * 256 + b1) * 256 + b2) * 256 + b3)
              ++ (encodeLoop rest p ++ List.replicate p '#')
            = encChar ((((b0 * 256 + b1) * 256 + b2) * 256 + b3) / 52200625 % 85)
              :: encChar ((((b0 * 256 + b1) * 256 + b2) * 256 + b3) / 614125 % 85)
              :: encChar ((((b0 * 256 + b1) * 256 + b2) * 256 + b3) / 7225 % 85)
              :: encChar ((((b0 * 256 + b1) * 256 + b2) * 256 + b3) / 85 % 85)
              :: encChar ((((b0 * 256 + b1) * 256 + b2) * 256 + b3) % 85)
              :: (encodeLoop rest p ++ List.replicate p '#') from rfl]
      rw [decodeLoop_cons _ _ _ _ _ _ _ htail]
      rw [fullGroup_v _ b0 b1 b2 b3 hb0 hb1 hb2 hb3 rfl]
      rw [hih]
      have hsplit : b0 :: b1 :: b2 :: b3 :: rest = [b0, b1, b2, b3] ++ rest := rfl
      rw [hsplit, List.take_append_eq_append_take]
      have hlen : ([b0, b1, b2, b3] ++ rest).length = 4 + rest.length := by simp; omega
      rw [hlen]
      have h1 : List.take (4 + rest.length - p) [b0, b1, b2, b3] = [b0, b1, b2, b3] := by
        apply List.take_of_length_le
        simp
        omega
      rw [h1]
      have h2 : 4 + rest.length - p - ([b0, b1, b2, b3] : List Nat).length
          = rest.length - p := by simp; omega
      rw [h2]

/-- Round trip of the single-buffer codec core, for any byte list. -/
theorem z85_decode_encodeBytes (X : List Nat) (hX : ∀ b ∈ X, b < 256) :
    z85_decode (z85_encodeBytes X) = X := by
  by_cases hnil : X = []
  · subst hnil
    rfl
  · have hX1 : 1 ≤ X.length := List.length_pos.mpr hnil
    rcases Nat.eq_zero_or_pos (X.length % 4) with hrem | hrem
    · -- length a multiple of four: no padding on either side
      unfold z85_encodeBytes
      rw [if_pos hrem]
      rw [show List.replicate 0 (0 : Nat) = [] from rfl, List.append_nil]
      have hX4 : 4 ≤ X.length := by omega
      have hlenc := encodeLoop_length X 0 hrem (by omega) hnil
      have hq : 1 ≤ X.length / 4 := by omega
      unfold z85_decode
      have hrem5 : (encodeLoop X 0).length % 5 = 0 := by rw [hlenc]; omega
      rw [if_pos hrem5]
      rw [show List.replicate 0 '#' = ([] : List Char) from rfl, List.append_nil]
      have hmain := decode_encodeLoop X 0 hrem (by omega) hX (by simp)
      rw [show List.replicate 0 '#' = ([] : List Char) from rfl, List.append_nil] at hmain
      rw [hmain]
      simp
    · -- padding needed on both sides
      have hplt : X.length % 4 < 4 := Nat.mod_lt _ (by norm_num)
      unfold z85_encodeBytes
      rw [if_neg (by omega)]
      have hpad1 : 1 ≤ 4 - X.length % 4 := by omega
      have hpad3 : 4 - X.length % 4 ≤ 3 := by omega
      have hlen : (X ++ List.replicate (4 - X.length % 4) 0).length
          = X.length + (4 - X.length % 4) := by simp
      have hmod : (X ++ List.replicate (4 - X.length % 4) 0).length % 4 = 0 := by
        rw [hlen]; omega
      have hnnil : X ++ List.replicate (4 - X.length % 4) 0 ≠ [] := by
        intro hcontra
        have := congrArg List.length hcontra
        simp at this
        omega
      have hlenc := encodeLoop_length _ _ hmod hpad3 hnnil
      rw [hlen] at hlenc
      have hq : 1 ≤ (X.length + (4 - X.length % 4)) / 4 := by omega
      unfold z85_decode
      have hrem5 : (encodeLoop (X ++ List.replicate (4 - X.length % 4) 0)
          (4 - X.length % 4)).length % 5 = 5 - (4 - X.length % 4) := by
        rw [hlenc]; omega
      rw [hrem5]
      rw [if_neg (by omega)]
      rw [show 5 - (5 - (4 - X.length % 4)) = 4 - X.length % 4 from by omega]
      have hbounds : ∀ b ∈ X ++ List.replicate (4 - X.length % 4) 0, b < 256 := by
        intro b hm
        rcases List.mem_append.mp hm with hx | hr
        · exact hX b hx
        · rw [List.eq_of_mem_replicate hr]; omega
      have hlsub : (X ++ List.replicate (4 - X.length % 4) 0).length - (4 - X.length % 4)
          = X.length := by rw [hlen]; omega
      have hdrop : List.drop
          ((X ++ List.replicate (4 - X.length % 4) 0).length - (4 - X.length % 4))
          (X ++ List.replicate (4 - X.length % 4) 0)
          = List.replicate (4 - X.length % 4) 0 := by
        rw [hlsub]
        exact List.drop_left X _
      rw [decode_encodeLoop _ _ hmod hpad3 hbounds hdrop]
      rw [hlsub]
      exact List.take_left X _

theorem groupBytes_length (o : Option Nat) : (groupBytes o).length = 4 := by
  cases o <;> rfl

theorem decodeLoop_length : ∀ (cs : List Char) (p : Nat), cs.length % 5 = 0 → p ≤ 4 →
    cs ≠ [] → (decodeLoop cs p).length = cs.length / 5 * 4 - p := by
  intro cs p
  induction cs, p using decodeLoop.induct with
  | case1 c0 c1 c2 c3 c4 rest p ih =>
    intro h5 hp _
    by_cases hr : rest = []
    · subst hr
      rw [decodeLoop_five]
      simp [groupBytes_length]
    · have hr5 : rest.length % 5 = 0 := by
        simp only [List.length_cons] at h5; omega
      have hrpos : 0 < rest.length := List.length_pos.mpr hr
      have hrge : 5 ≤ rest.length := by omega
      rw [decodeLoop_cons _ _ _ _ _ _ _ hr]
      rw [List.length_append, groupBytes_length, ih hr5 hp hr]
      simp only [List.length_cons]
      have h1 : 1 ≤ rest.length / 5 := by omega
      omega
  | case2 t p hno =>
    intro h5 _ hne
    rcases t with _ | ⟨a, _ | ⟨b, _ | ⟨c, _ | ⟨d, _ | ⟨e, t⟩⟩⟩⟩⟩
    · exact absurd rfl hne
    · simp at h5
    · simp at h5
    · simp at h5
    · simp at h5
    · exact absurd rfl (hno a b c d e t)

/-- Claim C1: for every byte sequence `X` (of any length, including lengths
that are not a multiple of 4, where the encoder zero-pads the final group and
drops the padding characters and the decoder re-pads with the sentinel and
discards the implied tail bytes), decoding the transport encoding of `X`
returns exactly `X`: `Z85.decode(Z85.encode(X)) == X`. -/
theorem transport_roundtrip (X : List Nat) (hX : ∀ b ∈ X, b < 256) :
    z85_decode (z85_encode [X]) = X := by
  have h1 : z85_encode [X] = z85_encodeBytes X := by
    simp [z85_encode]
  rw [h1]
  exact z85_decode_encodeBytes X hX

theorem transport_roundtrip_witness :
    (∀ b ∈ [134, 79, 210, 111, 5], b < 256)
      ∧ z85_decode (z85_encode [[134, 79, 210, 111, 5]]) = [134, 79, 210, 111, 5] :=
  ⟨by decide, transport_roundtrip [134, 79, 210, 111, 5] (by decide)⟩

/-- Claim C4 counterexample: the comma is not in the 85-symbol alphabet, yet
`Z85.decode(",,,,")` returns the non-empty byte buffer `[0, 0, 0]` and signals
no error — refuting the claim that decoding fails on non-alphabet input. -/
theorem transport_decode_invalid_counterexample :
    ',' ∉ Z85_CHARS ∧ z85_decode [',', ',', ',', ','] = [0, 0, 0]
      ∧ z85_decode [',', ',', ',', ','] ≠ [] := by
  refine ⟨by decide, by decide, by decide⟩

/-- Claim C4 amended: transport decoding performs no alphabet validation.  For
every input string it returns (without signalling any error) a byte buffer of
exactly `(padded length) * 4 / 5 - padding` bytes, where the padding extends
the input to a multiple of 5 characters; characters outside the alphabet but
inside the decode table's range are read as table value 0, so for example
`Z85.decode(",,,,") = [0, 0, 0]`. -/
theorem transport_decode_no_validation (s : List Char) :
    (z85_decode s).length
      = (s.length + (if s.length % 5 = 0 then 0 else 5 - s.length % 5)) * 4 / 5
        - (if s.length % 5 = 0 then 0 else 5 - s.length % 5)
      ∧ z85_decode [',', ',', ',', ','] = [0, 0, 0] := by
  constructor
  · by_cases hnil : s = []
    · subst hnil
      rfl
    · have hs1 : 1 ≤ s.length := List.length_pos.mpr hnil
      have hrlt : s.length % 5 < 5 := Nat.mod_lt _ (by norm_num)
      unfold z85_decode
      rcases Nat.eq_zero_or_pos (s.length % 5) with hrem | hrem
      · rw [if_pos hrem]
        rw [show List.replicate 0 '#' = ([] : List Char) from rfl, List.append_nil]
        rw [decodeLoop_length s 0 hrem (by omega) hnil]
        omega
      · rw [if_neg (by omega)]
        have hlen : (s ++ List.replicate (5 - s.length % 5) '#').length
            = s.length + (5 - s.length % 5) := by simp
        have hmod : (s ++ List.replicate (5 - s.length % 5) '#').length % 5 = 0 := by
          rw [hlen]; omega
        have hnnil : s ++ List.replicate (5 - s.length % 5) '#' ≠ [] := by
          intro hcontra
          have := congrArg List.length hcontra
          simp at this
          exact hnil this.1
        rw [decodeLoop_length _ _ hmod (by omega) hnnil, hlen]
        omega
  · decide

/-! ## Extension layer (src/extension.ts)

Platform collaborators are abstracted:

* `Crypto` packages `crypto.subtle.digest('SHA-256', ...)` (`sha256`),
  `crypto.subtle.encrypt/decrypt` with AES-GCM (`aesEncrypt`, `aesDecrypt`,
  returning `none` when the WebCrypto call throws, e.g. an AEAD authentication
  failure), and the `TextEncoder`/`TextDecoder` singletons.
* The VS Code secret store is an association list of key/value strings
  (`storeSet` shadows earlier entries, matching `secrets.store` overwrite
  semantics as observed through `secrets.get`).
* `UI` gives the user's answers to the three interactive prompts of
  `inputPassword`: the modal reuse-last-password question
  (`some true` = confirm, `some false` = cancel button, `none` = dismissed),
  the password input box and the confirmation input box (`none` = cancelled).

The global `currentKey` variable of the source is written but never read by
any other code, so it is not modelled.  Every embedded function returns its
result paired with the final store state. -/

structure Crypto where
  sha256 : List Nat → List Nat
  aesEncrypt : List Nat → List Nat → List Nat → Option (List Nat)
  aesDecrypt : List Nat → List Nat → List Nat → Option (List Nat)
  utf8Encode : String → List Nat
  utf8Decode : List Nat → String

structure UI where
  modalAnswer : Option Bool
  passwordInput : Option String
  confirmInput : Option String

abbrev Store := List (List Char × List Char)

def storeGet : Store → List Char → Option (List Char)
  | [], _ => none
  | (k, v) :: rest, key => if k = key then some v else storeGet rest key

def storeSet (s : Store) (k v : List Char) : Store := (k, v) :: s

/-- Constants from src/extension.ts. -/
def DEFAULT_KEY : List Char := "default-key".toList

def ENCRYPTION_VERSION : Nat := 0x00

def KEY_SIZE : Nat := 3

def IV_SIZE : Nat := 12

structure PasswordData where
  keyBase64 : List Char
  keyBuffer : List Nat
  valueBuffer : List Nat
deriving DecidableEq, Repr

/-- `readPassword`: look the key up in the secret store; a missing or empty
stored value (JavaScript falsiness of `passwordBase64`) yields `null`. -/
def readPassword (s : Store) (keyBase64 : List Char) : Option PasswordData :=
  match storeGet s keyBase64 with
  | some passwordBase64 =>
    if passwordBase64 = [] then none
    else some ⟨keyBase64, z85_decode keyBase64, z85_decode passwordBase64⟩
  | none => none

inductive PwErr where
  | dismissed
  | noPassword
  | passwordKeyMismatch
  | passwordNotMatch
deriving DecidableEq, Repr

/-- The derivation steps of `inputPassword` (src/extension.ts lines 157-160):
`valueBuffer = SHA-256(utf8(password))`,
`keyBuffer = SHA-256(valueBuffer).slice(0, KEY_SIZE)`,
`keyBase64 = Z85.encode(keyBuffer)`. -/
def derivePassword (c : Crypto) (password : String) : List Nat × List Nat × List Char :=
  (c.sha256 (c.utf8Encode password),
   (c.sha256 (c.sha256 (c.utf8Encode password))).take KEY_SIZE,
   z85_encode [(c.sha256 (c.sha256 (c.utf8Encode password))).take KEY_SIZE])

/-- The save step of `inputPassword`: optional confirmation prompt (only when
no required key identifier was given), update of the default-key pointer, and
persisting the password record. -/
def confirmAndSave (s : Store) (ui : UI) (checkKeyBase64 : Option (List Char))
    (password : String) (valueBuffer keyBuffer : List Nat) (keyBase64 : List Char) :
    Except PwErr PasswordData × Store :=
  match checkKeyBase64 with
  | none =>
    if ui.confirmInput = some password then
      (Except.ok ⟨keyBase64, keyBuffer, valueBuffer⟩,
       storeSet (storeSet s DEFAULT_KEY keyBase64) keyBase64 (z85_encode [valueBuffer]))
    else (Except.error PwErr.passwordNotMatch, s)
  | some _ =>
    (Except.ok ⟨keyBase64, keyBuffer, valueBuffer⟩,
     storeSet s keyBase64 (z85_encode [valueBuffer]))

/-- The password-entry phase of `inputPassword`: prompt, derive, check against
the required key identifier, reuse a stored identical record, otherwise
confirm and save. -/
def enterPassword (c : Crypto) (s : Store) (ui : UI) (checkKeyBase64 : Option (List Char)) :
    Except PwErr PasswordData × Store :=
  match ui.passwordInput with
  | none => (Except.error PwErr.noPassword, s)
  | some password =>
    if password = "" then (Except.error PwErr.noPassword, s)
    else
      if checkKeyBase64 ≠ none ∧ checkKeyBase64 ≠ some (derivePassword c password).2.2 then
        (Except.error PwErr.passwordKeyMismatch, s)
      else
        match readPassword s (derivePassword c password).2.2 with
        | some passwordData =>
          if passwordData.valueBuffer = (derivePassword c password).1 then
            match checkKeyBase64 with
            | none =>
              (Except.ok passwordData,
               storeSet s DEFAULT_KEY (derivePassword c password).2.2)
            | some _ => (Except.ok passwordData, s)
          else
            confirmAndSave s ui checkKeyBase64 password (derivePassword c password).1
              (derivePassword c password).2.1 (derivePassword c password).2.2
        | none =>
          confirmAndSave s ui checkKeyBase64 password (derivePassword c password).1
            (derivePassword c password).2.1 (derivePassword c password).2.2

/-- `inputPassword(checkKeyBase64)`: with no required identifier, offer to
reuse the default password first (confirm returns it; dismissing the modal
aborts; the cancel button falls through to the entry phase). -/
def inputPassword (c : Crypto) (s : Store) (ui : UI) (checkKeyBase64 : Option (List Char)) :
    Except PwErr PasswordData × Store :=
  match checkKeyBase64 with
  | none =>
    match storeGet s DEFAULT_KEY with
    | some defaultKey =>
      if defaultKey = [] then enterPassword c s ui none
      else
        match readPassword s defaultKey with
        | some lastPasswordData =>
          match ui.modalAnswer with
          | some true => (Except.ok lastPasswordData, s)
          | none => (Except.error PwErr.dismissed, s)
          | some false => enterPassword c s ui none
        | none => enterPassword c s ui none
    | none => enterPassword c s ui none
  | some _ => enterPassword c s ui checkKeyBase64

/-! ### Envelope codec and the encrypt/decrypt pipeline -/

/-- The serialization step of `encryptText`:
`Z85.encode(hashBuffer, keyBuffer, [ENCRYPTION_VERSION], encryptedBuffer)` —
the four fields in fixed order iv (12) | keyId (3) | version (1) | ciphertext. -/
def serializeEnvelope (iv keyId : List Nat) (version : Nat) (ciphertext : List Nat) :
    List Char :=
  z85_encode [iv, keyId, [version], ciphertext]

structure Envelope where
  iv : List Nat
  keyId : List Nat
  version : Option Nat
  ciphertext : List Nat
deriving DecidableEq, Repr

/-- The deserialization slices of `decryptText`: bytes 0-11 = iv, 12-14 =
key identifier, byte 15 = version (`undefined`, i.e. `none`, when the buffer
is shorter than 16 bytes), remainder = ciphertext. -/
def deserializeEnvelope (buf : List Nat) : Envelope where
  iv := buf.take IV_SIZE
  keyId := (buf.drop IV_SIZE).take KEY_SIZE
  version := ((buf.drop (IV_SIZE + KEY_SIZE)).take 1).head?
  ciphertext := buf.drop (IV_SIZE + KEY_SIZE + 1)

inductive DecErr where
  | emptyInput
  | unsupportedVersion
  | pw (e : PwErr)
  | aeadFailed
  | integrityFailed
deriving DecidableEq, Repr

/-- The AEAD call and integrity recheck at the end of `decryptText`:
decrypt with the resolved key material, recompute the plaintext hash and
compare its first 12 bytes with the envelope iv, then decode as text. -/
def decryptWith (c : Crypto) (s : Store) (pd : PasswordData)
    (hashBuffer cipherText : List Nat) : Except DecErr String × Store :=
  match c.aesDecrypt pd.valueBuffer hashBuffer cipherText with
  | none => (Except.error DecErr.aeadFailed, s)
  | some decryptedBuffer =>
    if (c.sha256 decryptedBuffer).take IV_SIZE = hashBuffer then
      (Except.ok (c.utf8Decode decryptedBuffer), s)
    else (Except.error DecErr.integrityFailed, s)

/-- `decryptText(encryptedBase64)`: reject empty input, transport-decode and
slice the envelope, gate on the version byte, resolve the password record by
the embedded key identifier (reading the store first, prompting otherwise),
then AEAD-decrypt and recheck. -/
def decryptText (c : Crypto) (s : Store) (ui : UI) (encryptedBase64 : List Char) :
    Except DecErr String × Store :=
  if encryptedBase64 = [] then (Except.error DecErr.emptyInput, s)
  else
    if (deserializeEnvelope (z85_decode encryptedBase64)).version
        ≠ some ENCRYPTION_VERSION then
      (Except.error DecErr.unsupportedVersion, s)
    else
      match readPassword s
          (z85_encode [(deserializeEnvelope (z85_decode encryptedBase64)).keyId]) with
      | some passwordData =>
        decryptWith c s passwordData (deserializeEnvelope (z85_decode encryptedBase64)).iv
          (deserializeEnvelope (z85_decode encryptedBase64)).ciphertext
      | none =>
        match inputPassword c s ui
            (some (z85_encode [(deserializeEnvelope (z85_decode encryptedBase64)).keyId])) with
        | (Except.ok passwordData, s1) =>
          decryptWith c s1 passwordData (deserializeEnvelope (z85_decode encryptedBase64)).iv
            (deserializeEnvelope (z85_decode encryptedBase64)).ciphertext
        | (Except.error e, s1) => (Except.error (DecErr.pw e), s1)

inductive EncErr where
  | emptyText
  | pw (e : PwErr)
  | encryptFailed
  | verifyFailed
deriving DecidableEq, Repr

/-- `encryptText(text)`: reject empty text, resolve a password, derive the
content hash iv, AEAD-encrypt, serialize the envelope, then self-verify by a
full decrypt of the just-produced token (`ui` answers the encrypt-side
prompts, `dui` any prompts of the verification decrypt). -/
def encryptText (c : Crypto) (s : Store) (ui dui : UI) (text : String) :
    Except EncErr (List Char) × Store :=
  if text = "" then (Except.error EncErr.emptyText, s)
  else
    match inputPassword c s ui none with
    | (Except.error e, s1) => (Except.error (EncErr.pw e), s1)
    | (Except.ok passwordData, s1) =>
      match c.aesEncrypt passwordData.valueBuffer
          ((c.sha256 (c.utf8Encode text)).take IV_SIZE) (c.utf8Encode text) with
      | none => (Except.error EncErr.encryptFailed, s1)
      | some encryptedBuffer =>
        match decryptText c s1 dui
            (serializeEnvelope ((c.sha256 (c.utf8Encode text)).take IV_SIZE)
              passwordData.keyBuffer ENCRYPTION_VERSION encryptedBuffer) with
        | (Except.ok decryptedText, s2) =>
          if decryptedText = text then
            (Except.ok (serializeEnvelope ((c.sha256 (c.utf8Encode text)).take IV_SIZE)
              passwordData.keyBuffer ENCRYPTION_VERSION encryptedBuffer), s2)
          else (Except.error EncErr.verifyFailed, s2)
        | (Except.error _, s2) => (Except.error EncErr.verifyFailed, s2)

instance {e a : Type} [DecidableEq e] [DecidableEq a] : DecidableEq (Except e a)
  | Except.error x, Except.error y =>
    if h : x = y then Decidable.isTrue (congrArg Except.error h)
    else Decidable.isFalse fun hc => h (Except.error.inj hc)
  | Except.error _, Except.ok _ => Decidable.isFalse fun hc => Except.noConfusion hc
  | Except.ok _, Except.error _ => Decidable.isFalse fun hc => Except.noConfusion hc
  | Except.ok x, Except.ok y =>
    if h : x = y then Decidable.isTrue (congrArg Except.ok h)
    else Decidable.isFalse fun hc => h (Except.ok.inj hc)

/-! ### Concrete collaborator instances used by witnesses and counterexamples -/

/-- A small concrete `Crypto` instance: a 32-byte digest stub, identity AEAD,
and a byte-per-character text codec.  Platform collaborators are external to
the repository, so witnesses may instantiate them freely. -/
def cryptoW : Crypto where
  sha256 := fun bs => ((bs ++ List.replicate 32 0).take 32).map (· % 256)
  aesEncrypt := fun _ _ d => some d
  aesDecrypt := fun _ _ d => some d
  utf8Encode := fun str => str.toList.map (fun ch => ch.toNat % 256)
  utf8Decode := fun bs => if bs = [104, 105] then "hi" else ""

theorem cryptoW_sha_bounds : ∀ bs : List Nat, ∀ b ∈ cryptoW.sha256 bs, b < 256 := by
  intro bs b hmem
  simp only [cryptoW, List.mem_map] at hmem
  obtain ⟨a, _, rfl⟩ := hmem
  exact Nat.mod_lt _ (by norm_num)

theorem cryptoW_sha_len : ∀ bs : List Nat, (cryptoW.sha256 bs).length = 32 := by
  intro bs
  simp [cryptoW]

/-- Prompt answers used by witnesses: no modal answer recorded (dismissal),
password "pw" entered and confirmed. -/
def uiW : UI := ⟨none, some "pw", some "pw"⟩

/-- Prompt answers with an explicit "No" to the reuse-last-password modal. -/
def uiNoW : UI := ⟨some false, some "pw", some "pw"⟩

/-- A store holding a default-password pointer that resolves to a record. -/
def storeW : Store := [(DEFAULT_KEY, "abcd".toList), ("abcd".toList, "wxyz".toList)]

/-! ### Claim C2 -/

/-- Claim C2 counterexample: at a concrete environment, encrypting the empty
string does not succeed — `encryptText` rejects it up front with the
empty-text warning and returns null, producing no token. -/
theorem encrypt_empty_counterexample :
    encryptText cryptoW [] uiW uiW "" = (Except.error EncErr.emptyText, []) := by decide

/-- Claim C2 amended: encrypting the empty string always fails: `encryptText`
rejects empty input immediately (`if (!text || text.length === 0)`) with a
warning and returns null before any password prompt or cryptographic call, so
no token is produced and no round trip takes place. -/
theorem encrypt_empty_rejected (c : Crypto) (s : Store) (ui dui : UI) :
    encryptText c s ui dui "" = (Except.error EncErr.emptyText, s) := rfl

/-! ### Claim C3 -/

/-- Claim C3 counterexample: with a default password present and resolving,
the user answering "No" to the reuse prompt does NOT abort the operation: at a
concrete environment `inputPassword` goes on to the password-entry phase and
returns a password record (not null). -/
theorem reuse_no_counterexample :
    storeGet storeW DEFAULT_KEY = some "abcd".toList
      ∧ readPassword storeW "abcd".toList ≠ none
      ∧ uiNoW.modalAnswer = some false
      ∧ (inputPassword cryptoW storeW uiNoW none).1.toOption.isSome = true := by decide

/-- Claim C3 amended: on an encrypt request, when a default password exists
and resolves to a stored record, dismissing the reuse prompt aborts the whole
operation (`inputPassword` returns null with no further prompt, no fallback to
any other key); an explicit "No" answer does not abort — the flow continues to
the password-entry phase. -/
theorem reuse_dismiss_aborts_no_continues (c : Crypto) (s : Store) (ui : UI)
    (dk : List Char) (hdk : storeGet s DEFAULT_KEY = some dk) (hne : dk ≠ [])
    (hrp : readPassword s dk ≠ none) :
    (ui.modalAnswer = none → inputPassword c s ui none = (Except.error PwErr.dismissed, s))
    ∧ (ui.modalAnswer = some false
        → inputPassword c s ui none = enterPassword c s ui none) := by
  cases hlp : readPassword s dk with
  | none => exact absurd hlp hrp
  | some lp =>
    constructor
    · intro hma
      simp [inputPassword, hdk, hlp, hma, hne]
    · intro hma
      simp [inputPassword, hdk, hlp, hma, hne]

theorem reuse_dismiss_aborts_witness :
    inputPassword cryptoW storeW uiW none = (Except.error PwErr.dismissed, storeW) :=
  (reuse_dismiss_aborts_no_continues cryptoW storeW uiW "abcd".toList
    (by decide) (by decide) (by decide)).1 rfl

/-! ### Claim C6 -/

/-- Claim C6: every decoded envelope whose version byte (byte 15 of the
transport-decoded buffer) is not `0x00` is rejected with the
unsupported-version error and null is returned, regardless of the rest of the
envelope content and before any password interaction. -/
theorem decrypt_version_gate (c : Crypto) (s : Store) (ui : UI) (tok : List Char) (v : Nat)
    (hne : tok ≠ [])
    (hv : (deserializeEnvelope (z85_decode tok)).version = some v)
    (hv0 : v ≠ ENCRYPTION_VERSION) :
    decryptText c s ui tok = (Except.error DecErr.unsupportedVersion, s) := by
  unfold decryptText
  rw [if_neg hne]
  have hcond : (deserializeEnvelope (z85_decode tok)).version ≠ some ENCRYPTION_VERSION := by
    rw [hv]
    intro hcontra
    exact hv0 (Option.some.inj hcontra)
  rw [if_pos hcond]

theorem decrypt_version_gate_witness :
    decryptText cryptoW [] uiW
        (serializeEnvelope (List.replicate 12 0) [1, 2, 3] 1 [9, 9, 9, 9])
      = (Except.error DecErr.unsupportedVersion, []) :=
  decrypt_version_gate cryptoW [] uiW
    (serializeEnvelope (List.replicate 12 0) [1, 2, 3] 1 [9, 9, 9, 9]) 1
    (by decide) (by decide) (by decide)

/-! ### Claim C7 -/

theorem take_append_of_length (l1 l2 : List Nat) (n : Nat) (h : l1.length = n) :
    (l1 ++ l2).take n = l1 := by
  subst h
  exact List.take_left l1 l2

theorem drop_append_of_length (l1 l2 : List Nat) (n : Nat) (h : l1.length = n) :
    (l1 ++ l2).drop n = l2 := by
  subst h
  exact List.drop_left l1 l2

/-- Claim C7: the envelope layout is fixed.  Encryption hands the transport
codec the fields in the order iv (12 bytes) | key identifier (3 bytes) |
version (1 byte) | ciphertext, and decryption slices the transport-decoded
buffer at the same fixed offsets (bytes 0-11, 12-14, 15, 16..), so
deserialization inverts serialization on every well-formed envelope. -/
theorem envelope_roundtrip (iv keyId : List Nat) (version : Nat) (cipher : List Nat)
    (hiv : iv.length = 12) (hkey : keyId.length = 3)
    (hivb : ∀ b ∈ iv, b < 256) (hkeyb : ∀ b ∈ keyId, b < 256)
    (hvb : version < 256) (hcb : ∀ b ∈ cipher, b < 256) :
    deserializeEnvelope (z85_decode (serializeEnvelope iv keyId version cipher))
      = ⟨iv, keyId, some version, cipher⟩ := by
  have hbounds : ∀ b ∈ iv ++ (keyId ++ ([version] ++ cipher)), b < 256 := by
    intro b hm
    rcases List.mem_append.mp hm with h | h
    · exact hivb b h
    rcases List.mem_append.mp h with h | h
    · exact hkeyb b h
    rcases List.mem_append.mp h with h | h
    · simp only [List.mem_singleton] at h
      omega
    · exact hcb b h
  have henc : serializeEnvelope iv keyId version cipher
      = z85_encodeBytes (iv ++ (keyId ++ ([version] ++ cipher))) := by
    unfold serializeEnvelope z85_encode
    rw [if_neg (by simp)]
    simp
  have hdec : z85_decode (serializeEnvelope iv keyId version cipher)
      = iv ++ (keyId ++ ([version] ++ cipher)) := by
    rw [henc]
    exact z85_decode_encodeBytes _ hbounds
  have hiv12 : iv.length = IV_SIZE := hiv
  have hkey3 : keyId.length = KEY_SIZE := hkey
  have h1 : (iv ++ (keyId ++ ([version] ++ cipher))).take IV_SIZE = iv :=
    take_append_of_length _ _ _ hiv12
  have h2 : (iv ++ (keyId ++ ([version] ++ cipher))).drop IV_SIZE
      = keyId ++ ([version] ++ cipher) :=
    drop_append_of_length _ _ _ hiv12
  have h3 : (keyId ++ ([version] ++ cipher)).take KEY_SIZE = keyId :=
    take_append_of_length _ _ _ hkey3
  have h4 : (keyId ++ ([version] ++ cipher)).drop KEY_SIZE = [version] ++ cipher :=
    drop_append_of_length _ _ _ hkey3
  have h5 : (iv ++ (keyId ++ ([version] ++ cipher))).drop (IV_SIZE + KEY_SIZE)
      = [version] ++ cipher := by
    rw [← List.drop_drop, h2, h4]
  have h6 : (iv ++ (keyId ++ ([version] ++ cipher))).drop (IV_SIZE + KEY_SIZE + 1)
      = cipher := by
    rw [← List.drop_drop, h5]
    rfl
  unfold deserializeEnvelope
  rw [hdec, h1, h2, h3, h5, h6]
  rfl

theorem envelope_roundtrip_witness :
    deserializeEnvelope (z85_decode (serializeEnvelope
        [10, 20, 30, 40, 50, 60, 70, 80, 90, 100, 110, 120] [7, 8, 9] 0 [1, 2, 255]))
      = ⟨[10, 20, 30, 40, 50, 60, 70, 80, 90, 100, 110, 120], [7, 8, 9], some 0,
         [1, 2, 255]⟩ :=
  envelope_roundtrip [10, 20, 30, 40, 50, 60, 70, 80, 90, 100, 110, 120] [7, 8, 9] 0
    [1, 2, 255] (by decide) (by decide) (by decide) (by decide) (by decide) (by decide)

/-! ### Claim C8 -/

/-- The key-derivation pair in the spec's words (section 4.2): KeyMaterial is
the full one-way hash of the UTF-8 bytes of the password, used directly as the
AEAD key; KeyIdentifier is the first 3 bytes of a second one-way hash of the
KeyMaterial. -/
def deriveFromPasswordSpec (c : Crypto) (password : String) : List Nat × List Nat :=
  (c.sha256 (c.utf8Encode password),
   (c.sha256 (c.sha256 (c.utf8Encode password))).take 3)

/-- Claim C8: the derivation in `inputPassword` is exactly the deterministic
function of the spec — KeyMaterial = SHA-256(utf8(password)) and
KeyIdentifier = first 3 bytes of SHA-256(KeyMaterial); two derivations of the
same password coincide, and a fresh-password run of `inputPassword` returns
precisely this derived material. -/
theorem derive_deterministic_spec (c : Crypto) (p : String) (s : Store) (ui : UI)
    (h1 : storeGet s DEFAULT_KEY = none) (h2 : ui.passwordInput = some p) (h3 : p ≠ "")
    (h4 : readPassword s (derivePassword c p).2.2 = none) (h5 : ui.confirmInput = some p) :
    ((derivePassword c p).1, (derivePassword c p).2.1) = deriveFromPasswordSpec c p
    ∧ (∀ q : String, q = p → derivePassword c q = derivePassword c p)
    ∧ (inputPassword c s ui none).1
        = Except.ok ⟨(derivePassword c p).2.2, (derivePassword c p).2.1,
            (derivePassword c p).1⟩ := by
  refine ⟨rfl, fun q hq => by rw [hq], ?_⟩
  simp only [inputPassword, h1]
  simp only [enterPassword, h2]
  rw [if_neg h3]
  rw [if_neg (by simp)]
  rw [h4]
  simp [confirmAndSave, h5]

theorem derive_deterministic_spec_witness :
    (inputPassword cryptoW [] uiW none).1
      = Except.ok ⟨(derivePassword cryptoW "pw").2.2, (derivePassword cryptoW "pw").2.1,
          (derivePassword cryptoW "pw").1⟩ :=
  (derive_deterministic_spec cryptoW "pw" [] uiW (by decide) rfl (by decide)
    (by decide) rfl).2.2

/-! ### Claim C9 -/

/-- Claim C9: on a decrypt whose embedded key identifier has no stored record,
entering a password whose derived identifier differs aborts with the
password-key-mismatch error (null), leaves the store untouched, offers no
retry, and never invokes the AEAD decrypt primitive — the result is the same
for every possible `aesDecrypt` function `f`. -/
theorem decrypt_key_mismatch (c : Crypto) (s : Store) (ui : UI) (tok : List Char)
    (p : String) (f : List Nat → List Nat → List Nat → Option (List Nat))
    (hne : tok ≠ [])
    (hv : (deserializeEnvelope (z85_decode tok)).version = some ENCRYPTION_VERSION)
    (hnorec : readPassword s
        (z85_encode [(deserializeEnvelope (z85_decode tok)).keyId]) = none)
    (hpw : ui.passwordInput = some p) (hp : p ≠ "")
    (hmm : (derivePassword c p).2.2
        ≠ z85_encode [(deserializeEnvelope (z85_decode tok)).keyId]) :
    decryptText { c with aesDecrypt := f } s ui tok
      = (Except.error (DecErr.pw PwErr.passwordKeyMismatch), s) := by
  have hc' : ∀ q : String, derivePassword { c with aesDecrypt := f } q
      = derivePassword c q := fun q => rfl
  unfold decryptText
  rw [if_neg hne]
  rw [if_neg (by rw [hv]; simp)]
  rw [hnorec]
  simp only [inputPassword]
  simp only [enterPassword, hpw]
  rw [if_neg hp]
  rw [if_pos (by
    refine ⟨by simp, ?_⟩
    rw [hc']
    intro hcontra
    exact hmm (Option.some.inj hcontra).symm)]

theorem decrypt_key_mismatch_witness :
    decryptText { cryptoW with aesDecrypt := fun _ _ _ => none } [] uiW
        (serializeEnvelope (List.replicate 12 0) [5, 6, 7] 0 [1, 2, 3, 4])
      = (Except.error (DecErr.pw PwErr.passwordKeyMismatch), []) :=
  decrypt_key_mismatch cryptoW [] uiW
    (serializeEnvelope (List.replicate 12 0) [5, 6, 7] 0 [1, 2, 3, 4]) "pw"
    (fun _ _ _ => none) (by decide) (by decide) (by decide) rfl (by decide) (by decide)

/-! ### Claim C10 -/

theorem storeGet_set_ne (s : Store) (k v q : List Char) (h : k ≠ q) :
    storeGet (storeSet s k v) q = storeGet s q := by
  simp [storeSet, storeGet, h]

theorem z85_encode_three_length (kb : List Nat) (h : kb.length = 3) :
    (z85_encode [kb]).length = 4 := by
  have h1 : z85_encode [kb] = z85_encodeBytes kb := by simp [z85_encode]
  rw [h1]
  unfold z85_encodeBytes
  simp only [h]
  norm_num
  have hlen : (kb ++ [0]).length = 4 := by simp [h]
  rw [encodeLoop_length _ _ (by rw [hlen]) (by norm_num)
    (by intro hc; have := congrArg List.length hc; simp [h] at this), hlen]

/-- The key identifier string derived from a password is 4 characters long
(given a 32-byte digest), so it can never equal the 11-character store key
`"default-key"`. -/
theorem derived_key_ne_default (c : Crypto) (p : String)
    (hlen : ∀ bs, (c.sha256 bs).length = 32) :
    (derivePassword c p).2.2 ≠ DEFAULT_KEY := by
  intro hcontra
  have h3 : ((c.sha256 (c.sha256 (c.utf8Encode p))).take KEY_SIZE).length = 3 := by
    rw [List.length_take, hlen]
    decide
  have h4 := z85_encode_three_length _ h3
  have : (derivePassword c p).2.2.length = 4 := h4
  rw [hcontra] at this
  simp [DEFAULT_KEY] at this

/-- Claim C10: a decrypt-path password prompt never changes the
default-password pointer.  Whenever `inputPassword` is called with a required
key identifier (the decrypt case), the `DEFAULT_KEY` entry of the secret store
is unchanged by the call, on every control path. -/
theorem inputPassword_decrypt_frame (c : Crypto) (s : Store) (ui : UI) (k : List Char)
    (hlen : ∀ bs, (c.sha256 bs).length = 32) :
    storeGet (inputPassword c s ui (some k)).2 DEFAULT_KEY = storeGet s DEFAULT_KEY := by
  show storeGet (enterPassword c s ui (some k)).2 DEFAULT_KEY = storeGet s DEFAULT_KEY
  unfold enterPassword
  split
  · rfl
  next password hpi =>
    split
    · rfl
    split
    · rfl
    split
    next pd hrp =>
      split
      · rfl
      · exact storeGet_set_ne s ((derivePassword c password).2.2)
          (z85_encode [(derivePassword c password).1]) DEFAULT_KEY
          (derived_key_ne_default c password hlen)
    next hrp =>
      exact storeGet_set_ne s ((derivePassword c password).2.2)
        (z85_encode [(derivePassword c password).1]) DEFAULT_KEY
        (derived_key_ne_default c password hlen)

theorem inputPassword_decrypt_frame_witness :
    storeGet (inputPassword cryptoW storeW uiW (some ("Aczo".toList))).2 DEFAULT_KEY
      = storeGet storeW DEFAULT_KEY :=
  inputPassword_decrypt_frame cryptoW storeW uiW ("Aczo".toList) cryptoW_sha_len

/-! ### Claim C5 -/

theorem z85_encode_ne_nil (vb : List Nat) (h : vb.length = 32) : z85_encode [vb] ≠ [] := by
  have h1 : z85_encode [vb] = z85_encodeBytes vb := by simp [z85_encode]
  rw [h1]
  unfold z85_encodeBytes
  simp only [h]
  norm_num
  exact encodeLoop_ne_nil _ _ (by simp [h]) (by norm_num)
    (by intro hc; have := congrArg List.length hc; simp [h] at this)

theorem readPassword_set (s : Store) (k enc : List Char) (hne : enc ≠ []) :
    readPassword (storeSet s k enc) k = some ⟨k, z85_decode k, z85_decode enc⟩ := by
  simp [readPassword, storeSet, storeGet, hne]

/-- After a successful checked (`decrypt`-side) `inputPassword`, the store can
read back a record for the required identifier whose key material equals the
returned one. -/
theorem inputPassword_checked_readback (c : Crypto) (s : Store) (ui : UI) (k : List Char)
    (pd : PasswordData) (s2 : Store)
    (hb : ∀ bs : List Nat, ∀ b ∈ c.sha256 bs, b < 256)
    (hlen : ∀ bs : List Nat, (c.sha256 bs).length = 32)
    (h : inputPassword c s ui (some k) = (Except.ok pd, s2)) :
    ∃ pd2 : PasswordData, readPassword s2 k = some pd2
      ∧ pd2.valueBuffer = pd.valueBuffer := by
  rw [show inputPassword c s ui (some k) = enterPassword c s ui (some k) from rfl] at h
  unfold enterPassword at h
  split at h
  · simp at h
  next password hpi =>
    split at h
    · simp at h
    split at h
    · simp at h
    next hmm =>
      push_neg at hmm
      have hkd : k = (derivePassword c password).2.2 :=
        Option.some.inj (hmm (by simp))
      have hvb32 : ((derivePassword c password).1).length = 32 := hlen _
      have hvbb : ∀ b ∈ (derivePassword c password).1, b < 256 := hb _
      have hencne : z85_encode [(derivePassword c password).1] ≠ [] :=
        z85_encode_ne_nil _ hvb32
      have hdecenc : z85_decode (z85_encode [(derivePassword c password).1])
          = (derivePassword c password).1 := by
        rw [show z85_encode [(derivePassword c password).1]
              = z85_encodeBytes (derivePassword c password).1 from by simp [z85_encode]]
        exact z85_decode_encodeBytes _ hvbb
      split at h
      next pd0 hrp =>
        split at h
        next hcmp =>
          simp only [Prod.mk.injEq, Except.ok.injEq] at h
          obtain ⟨hpd, hs⟩ := h
          refine ⟨pd0, ?_, ?_⟩
          · rw [← hs, hkd]
            exact hrp
          · rw [hpd]
        next hcmp =>
          unfold confirmAndSave at h
          simp only [Prod.mk.injEq, Except.ok.injEq] at h
          obtain ⟨hpd, hs⟩ := h
          refine ⟨⟨k, z85_decode k, z85_decode (z85_encode [(derivePassword c password).1])⟩,
            ?_, ?_⟩
          · rw [← hs, hkd]
            exact readPassword_set s _ _ hencne
          · rw [hdecenc, ← hpd]
      next hrp =>
        unfold confirmAndSave at h
        simp only [Prod.mk.injEq, Except.ok.injEq] at h
        obtain ⟨hpd, hs⟩ := h
        refine ⟨⟨k, z85_decode k, z85_decode (z85_encode [(derivePassword c password).1])⟩,
          ?_, ?_⟩
        · rw [← hs, hkd]
          exact readPassword_set s _ _ hencne
        · rw [hdecenc, ← hpd]

theorem decryptWith_store (c : Crypto) (s : Store) (pd : PasswordData)
    (iv ct : List Nat) : (decryptWith c s pd iv ct).2 = s := by
  unfold decryptWith
  split
  · rfl
  · split <;> rfl

theorem decryptWith_congr (c : Crypto) (s1 s2 : Store) (pd1 pd2 : PasswordData)
    (iv ct : List Nat) (hv : pd1.valueBuffer = pd2.valueBuffer) :
    (decryptWith c s1 pd1 iv ct).1 = (decryptWith c s2 pd2 iv ct).1 := by
  unfold decryptWith
  rw [hv]
  cases hdec : c.aesDecrypt pd2.valueBuffer iv ct with
  | none => rfl
  | some d =>
    simp only
    by_cases hc : (c.sha256 d).take IV_SIZE = iv
    · rw [if_pos hc, if_pos hc]
    · rw [if_neg hc, if_neg hc]

/-- A successful decrypt is stable: re-running `decryptText` on the store it
produced yields the same plaintext and leaves the store unchanged (the record
it used, or just stored, is read back directly). -/
theorem decryptText_stable (c : Crypto) (s s2 : Store) (ui : UI) (tok : List Char)
    (t : String)
    (hb : ∀ bs : List Nat, ∀ b ∈ c.sha256 bs, b < 256)
    (hlen : ∀ bs : List Nat, (c.sha256 bs).length = 32)
    (h : decryptText c s ui tok = (Except.ok t, s2)) :
    decryptText c s2 ui tok = (Except.ok t, s2) := by
  by_cases hne : tok = []
  · unfold decryptText at h
    rw [if_pos hne] at h
    simp at h
  · unfold decryptText at h ⊢
    rw [if_neg hne] at h ⊢
    by_cases hv : (deserializeEnvelope (z85_decode tok)).version ≠ some ENCRYPTION_VERSION
    · rw [if_pos hv] at h
      simp at h
    · rw [if_neg hv] at h ⊢
      cases hrp : readPassword s
          (z85_encode [(deserializeEnvelope (z85_decode tok)).keyId]) with
      | some pd =>
        rw [hrp] at h
        have hred : decryptWith c s pd (deserializeEnvelope (z85_decode tok)).iv
            (deserializeEnvelope (z85_decode tok)).ciphertext = (Except.ok t, s2) := h
        have hs2 : s2 = s := by
          have hst := decryptWith_store c s pd
            (deserializeEnvelope (z85_decode tok)).iv
            (deserializeEnvelope (z85_decode tok)).ciphertext
          rw [hred] at hst
          exact hst
        subst hs2
        rw [hrp]
        exact h
      | none =>
        rw [hrp] at h
        rcases hip : inputPassword c s ui
            (some (z85_encode [(deserializeEnvelope (z85_decode tok)).keyId]))
          with ⟨res, s1⟩
        rw [hip] at h
        cases res with
        | error e => simp at h
        | ok pd =>
          have hred : decryptWith c s1 pd (deserializeEnvelope (z85_decode tok)).iv
              (deserializeEnvelope (z85_decode tok)).ciphertext = (Except.ok t, s2) := h
          have hs2 : s2 = s1 := by
            have hst := decryptWith_store c s1 pd
              (deserializeEnvelope (z85_decode tok)).iv
              (deserializeEnvelope (z85_decode tok)).ciphertext
            rw [hred] at hst
            exact hst
          subst hs2
          obtain ⟨pd2, hrp2, hvb⟩ := inputPassword_checked_readback c s ui
            (z85_encode [(deserializeEnvelope (z85_decode tok)).keyId]) pd s2 hb hlen hip
          rw [hrp2]
          show decryptWith c s2 pd2 (deserializeEnvelope (z85_decode tok)).iv
            (deserializeEnvelope (z85_decode tok)).ciphertext = (Except.ok t, s2)
          have h1 : (decryptWith c s2 pd2 (deserializeEnvelope (z85_decode tok)).iv
              (deserializeEnvelope (z85_decode tok)).ciphertext).1 = Except.ok t := by
            rw [decryptWith_congr c s2 s2 pd2 pd _ _ hvb, hred]
          have h2 : (decryptWith c s2 pd2 (deserializeEnvelope (z85_decode tok)).iv
              (deserializeEnvelope (z85_decode tok)).ciphertext).2 = s2 :=
            decryptWith_store c s2 pd2 _ _
          calc decryptWith c s2 pd2 (deserializeEnvelope (z85_decode tok)).iv
                (deserializeEnvelope (z85_decode tok)).ciphertext
              = ((decryptWith c s2 pd2 (deserializeEnvelope (z85_decode tok)).iv
                  (deserializeEnvelope (z85_decode tok)).ciphertext).1,
                 (decryptWith c s2 pd2 (deserializeEnvelope (z85_decode tok)).iv
                  (deserializeEnvelope (z85_decode tok)).ciphertext).2) := rfl
            _ = (Except.ok t, s2) := by rw [h1, h2]

/-- Claim C5: every successful encrypt self-verifies.  `encryptText` returns a
token only when decrypting that just-produced token end-to-end yielded a
string equal to the original plaintext; re-running `decryptText` on the final
store therefore recovers exactly the original text (a differing round trip
makes the call fail with the encryption-verification error and return null,
producing no token). -/
theorem encrypt_self_verifies (c : Crypto) (s : Store) (ui dui : UI) (text : String)
    (tok : List Char) (sf : Store)
    (hb : ∀ bs : List Nat, ∀ b ∈ c.sha256 bs, b < 256)
    (hlen : ∀ bs : List Nat, (c.sha256 bs).length = 32)
    (h : encryptText c s ui dui text = (Except.ok tok, sf)) :
    decryptText c sf dui tok = (Except.ok text, sf) := by
  unfold encryptText at h
  by_cases ht : text = ""
  · rw [if_pos ht] at h
    simp at h
  · rw [if_neg ht] at h
    rcases hip : inputPassword c s ui none with ⟨res, s1⟩
    rw [hip] at h
    cases res with
    | error e => simp at h
    | ok pd =>
      cases henc : c.aesEncrypt pd.valueBuffer
          ((c.sha256 (c.utf8Encode text)).take IV_SIZE) (c.utf8Encode text) with
      | none =>
        have h2 : (Except.error (EncErr.encryptFailed) : Except EncErr (List Char))
            = Except.ok tok := by
          have hred : ((Except.error (EncErr.encryptFailed) : Except EncErr (List Char)),
              s1) = (Except.ok tok, sf) := by
            rw [← h]
            simp only [henc]
          exact congrArg Prod.fst hred
        simp at h2
      | some encBuf =>
        rcases hdec : decryptText c s1 dui
            (serializeEnvelope ((c.sha256 (c.utf8Encode text)).take IV_SIZE)
              pd.keyBuffer ENCRYPTION_VERSION encBuf) with ⟨dres, s2⟩
        have hred : (match decryptText c s1 dui
            (serializeEnvelope ((c.sha256 (c.utf8Encode text)).take IV_SIZE)
              pd.keyBuffer ENCRYPTION_VERSION encBuf) with
          | (Except.ok decryptedText, s2) =>
            if decryptedText = text then
              (Except.ok (serializeEnvelope ((c.sha256 (c.utf8Encode text)).take IV_SIZE)
                pd.keyBuffer ENCRYPTION_VERSION encBuf), s2)
            else (Except.error EncErr.verifyFailed, s2)
          | (Except.error _, s2) => (Except.error EncErr.verifyFailed, s2))
            = (Except.ok tok, sf) := by
          rw [← h]
          simp only [henc]
        rw [hdec] at hred
        cases dres with
        | error e => simp at hred
        | ok d =>
          have hred2 : (if d = text then
              (Except.ok (serializeEnvelope ((c.sha256 (c.utf8Encode text)).take IV_SIZE)
                pd.keyBuffer ENCRYPTION_VERSION encBuf), s2)
            else ((Except.error EncErr.verifyFailed : Except EncErr (List Char)), s2))
              = (Except.ok tok, sf) := hred
          by_cases hd : d = text
          · rw [if_pos hd] at hred2
            simp only [Prod.mk.injEq, Except.ok.injEq] at hred2
            obtain ⟨htok, hsf⟩ := hred2
            subst hd
            rw [hsf] at hdec
            rw [← htok]
            exact decryptText_stable c s1 sf dui _ d hb hlen hdec
          · rw [if_neg hd] at hred2
            simp at hred2

theorem encrypt_self_verifies_witness :
    decryptText cryptoW
        [("Aczo".toList, "AczoZ00000000000000000000000000000000000".toList),
         (DEFAULT_KEY, "Aczo".toList)] uiW ("xLvCD0000000000AczoZxLv".toList)
      = (Except.ok "hi",
         [("Aczo".toList, "AczoZ00000000000000000000000000000000000".toList),
          (DEFAULT_KEY, "Aczo".toList)]) :=
  encrypt_self_verifies cryptoW [] uiW uiW "hi" ("xLvCD0000000000AczoZxLv".toList)
    [("Aczo".toList, "AczoZ00000000000000000000000000000000000".toList),
     (DEFAULT_KEY, "Aczo".toList)] cryptoW_sha_bounds cryptoW_sha_len (by decide)
